import Mathlib

/-!
Verification of the table-extraction and normalization pipeline of the
anime-adventures-values repository (`scrape_anime_adventures_by_section.py`
and `scrape_anime_adventures_values.py`).

Rows are Python dicts; we embed them as insertion-ordered association
lists with Python `d[k] = v` update semantics (`dset`), `d.get` (`dget`)
and `k in d` (`dmem`).  Text processing is modelled on `List Char`.
Python's `\w`, `\s`, `str.strip`, `str.lower`/`upper` are modelled at
ASCII scope (all data handled by the scraper and all inputs used in the
development are ASCII).  The backtracking regex substitutions used by
the source are embedded as direct scanning functions that implement the
leftmost / greedy / lazy semantics of the concrete patterns involved.
-/

/-- Python `\w` at ASCII scope: letters, digits, underscore. -/
def isWordChar (c : Char) : Bool := c.isAlphanum || c = '_'

/-- Python `\s` at ASCII scope. -/
def isWhite (c : Char) : Bool :=
  c = ' ' || c = '\t' || c = '\n' || c = '\r' || c = Char.ofNat 11 || c = Char.ofNat 12

/-- The characters removed by `re.sub(r'[<>"\x27]', '', text)` in `sanitize_input`. -/
def isBadChar (c : Char) : Bool :=
  c = '<' || c = '>' || c = Char.ofNat 34 || c = Char.ofNat 39

/-- A Python dict from string to string: insertion-ordered association list. -/
abbrev Dict := List (String × String)

/-- Python `d.get(k)`. -/
def dget : Dict → String → Option String
  | [], _ => none
  | (k', v) :: rest, k => if k' = k then some v else dget rest k

/-- Python `k in d`. -/
def dmem : Dict → String → Bool
  | [], _ => false
  | (k', _) :: rest, k => k' = k || dmem rest k

/-- Python `d[k] = v`: update in place if the key exists, else append. -/
def dset : Dict → String → String → Dict
  | [], k, v => [(k, v)]
  | (k', v') :: rest, k, v =>
    if k' = k then (k, v) :: rest else (k', v') :: dset rest k v

/-- `html.escape` on one character (quote=True, the default). -/
def htmlEscapeChar (c : Char) : List Char :=
  if c = '&' then "&amp;".data
  else if c = '<' then "&lt;".data
  else if c = '>' then "&gt;".data
  else if c = Char.ofNat 34 then "&quot;".data
  else if c = Char.ofNat 39 then "&#x27;".data
  else [c]

/-- `html.escape(text)` from `sanitize_input`. -/
def htmlEscape (l : List Char) : List Char := (l.map htmlEscapeChar).flatten

/-- `re.sub(r'[<>"\x27]', '', text)` from `sanitize_input`. -/
def stripBad (l : List Char) : List Char := l.filter (fun c => !isBadChar c)

/-- Python `str.strip()` (ASCII whitespace scope). -/
def pyStripChars (l : List Char) : List Char :=
  ((l.dropWhile isWhite).reverse.dropWhile isWhite).reverse

/-- Python `str.strip()` on strings. -/
def pyStrip (s : String) : String := ⟨pyStripChars s.data⟩

/-- The length-limiting step of `sanitize_input`:
`if len(text) > 1000: text = text[:1000] + "..."`. -/
def truncate1000 (l : List Char) : List Char :=
  if 1000 < l.length then l.take 1000 ++ "...".data else l

/-- `sanitize_input` from `scrape_anime_adventures_by_section.py` (string case):
HTML-escape, remove dangerous characters, limit length, strip. -/
def sanitize_input (s : String) : String :=
  ⟨pyStripChars (truncate1000 (stripBad (htmlEscape s.data)))⟩

/-- One entry of the `validate_data_row` loop, over an arbitrary cleaning
function `f`: clean key and value and keep the entry only if both clean to a
non-empty string. -/
def sanStep (f : String → String) (acc : Dict) (p : String × String) : Dict :=
  if f p.1 ≠ "" ∧ f p.2 ≠ "" then dset acc (f p.1) (f p.2) else acc

/-- One entry of the `validate_data_row` loop, cleaning with `sanitize_input`. -/
def validateStep (acc : Dict) (p : String × String) : Dict :=
  sanStep sanitize_input acc p

/-- `validate_data_row`: sanitize every key and value, keeping only entries
where both sanitize to a non-empty string. -/
def validate_data_row (d : Dict) : Dict := d.foldl validateStep []

/-- Python `str.lower()` (ASCII scope), kernel-computable. -/
def pyToLower (s : String) : String := ⟨s.data.map Char.toLower⟩

/-- Python `str.upper()` (ASCII scope), kernel-computable. -/
def pyToUpper (s : String) : String := ⟨s.data.map Char.toUpper⟩

/-- Python substring test `needle in hay`, on char lists. -/
def pyInAux (n : List Char) : List Char → Bool
  | [] => n.isEmpty
  | c :: t => n.isPrefixOf (c :: t) || pyInAux n t

/-- Python substring test `needle in hay`. -/
def pyIn (needle hay : String) : Bool := pyInAux needle.data hay.data

/-- Greedy choice of the group length for the patterns with a leading `(\w+)`
followed by a backreference: the largest `L` with `1 <= L <= bound` such that
the `L` characters after the group repeat the group.  Python's backtracking
tries the longest `\w+` group first; a group longer than half the word run can
never be followed by a full literal copy, so the search starts at
`bound = run.length / 2`. -/
def findL : Nat → List Char → Option Nat
  | 0, _ => none
  | b + 1, run =>
    if (run.drop (b + 1)).take (b + 1) = run.take (b + 1) then some (b + 1)
    else findL b run

/-- Number of consecutive leading copies of `g` in `l` (greedy `\1+`), with fuel. -/
def countCopies : Nat → List Char → List Char → Nat
  | 0, _, _ => 0
  | f + 1, g, l =>
    if g ≠ [] ∧ g.isPrefixOf l then 1 + countCopies f g (l.drop g.length) else 0

/-- `re.sub(r"(\w+)\1+", r"\1", s)` from `remove_duplicate_prefixes`:
leftmost scan; at a word character, the greedy group is the largest repeated
prefix of the maximal word run, `\1+` then consumes greedily, and the whole
match is replaced by the group. -/
def sub1Go : Nat → List Char → List Char
  | 0, _ => []
  | _, [] => []
  | f + 1, c :: rest =>
    let l := c :: rest
    if isWordChar c then
      let run := l.takeWhile isWordChar
      match findL (run.length / 2) run with
      | some L =>
        let g := run.take L
        let m := countCopies run.length g (run.drop L)
        g ++ sub1Go f (l.drop ((m + 1) * L))
      | none => c :: sub1Go f rest
    else c :: sub1Go f rest

/-- `re.sub(r"(\w+)\1+", r"\1", s)`. -/
def sub1Str (s : String) : String := ⟨sub1Go s.data.length s.data⟩

/-- `re.sub(r"(\w+)\1", r"\1", value)` from `clean_and_format_data` (single
backreference, no `+`): the match is group plus exactly one copy. -/
def sub2Go : Nat → List Char → List Char
  | 0, _ => []
  | _, [] => []
  | f + 1, c :: rest =>
    let l := c :: rest
    if isWordChar c then
      let run := l.takeWhile isWordChar
      match findL (run.length / 2) run with
      | some L => run.take L ++ sub2Go f (l.drop (2 * L))
      | none => c :: sub2Go f rest
    else c :: sub2Go f rest

/-- `re.sub(r"(\w+)\1", r"\1", value)`. -/
def sub2Str (s : String) : String := ⟨sub2Go s.data.length s.data⟩

/-- Trailing `\b` test: the next position is end of input or a non-word character. -/
def atWordBoundary (l : List Char) : Bool :=
  match l with
  | [] => true
  | c :: _ => !isWordChar c

/-- `re.sub(r"(\b\w+)\s+\1\b", r"\1", s)` from `remove_duplicate_prefixes`.
The boolean argument records whether the previous character was a word
character (for the leading `\b`).  Since the word run is maximal, the group is
forced to be the whole run and `\s+` is forced to consume the whole whitespace
run; the match succeeds iff the run then repeats at a trailing word boundary. -/
def sub3Go : Nat → Bool → List Char → List Char
  | 0, _, _ => []
  | _, _, [] => []
  | f + 1, prevWord, c :: rest =>
    let l := c :: rest
    if isWordChar c ∧ prevWord = false then
      let run := l.takeWhile isWordChar
      let n := run.length
      let ws := (l.drop n).takeWhile isWhite
      let w := ws.length
      let tl := (l.drop n).drop w
      if 1 ≤ w ∧ run.isPrefixOf tl ∧ atWordBoundary (tl.drop n) = true then
        run ++ sub3Go f true (tl.drop n)
      else c :: sub3Go f true rest
    else c :: sub3Go f (isWordChar c) rest

/-- `re.sub(r"(\b\w+)\s+\1\b", r"\1", s)`. -/
def sub3Str (s : String) : String := ⟨sub3Go s.data.length false s.data⟩

/-- `re.sub(r"(\b\w+)(\1\b)", r"\1", char_name)` from `clean_and_format_data`:
because of the two word boundaries the match is exactly a maximal word run of
even length whose second half repeats the first; it is replaced by the half. -/
def sub4Go : Nat → Bool → List Char → List Char
  | 0, _, _ => []
  | _, _, [] => []
  | f + 1, prevWord, c :: rest =>
    let l := c :: rest
    if isWordChar c ∧ prevWord = false then
      let run := l.takeWhile isWordChar
      let n := run.length
      if n % 2 = 0 ∧ run.take (n / 2) = run.drop (n / 2) then
        run.take (n / 2) ++ sub4Go f true (l.drop n)
      else c :: sub4Go f true rest
    else c :: sub4Go f (isWordChar c) rest

/-- `re.sub(r"(\b\w+)(\1\b)", r"\1", char_name)`. -/
def sub4Str (s : String) : String := ⟨sub4Go s.data.length false s.data⟩

/-- `re.sub(r"ShinyShiny", "Shiny", s)` from `remove_duplicate_prefixes`. -/
def subShinyGo : Nat → List Char → List Char
  | 0, _ => []
  | _, [] => []
  | f + 1, c :: rest =>
    let l := c :: rest
    if "ShinyShiny".data.isPrefixOf l then
      "Shiny".data ++ subShinyGo f (l.drop 10)
    else c :: subShinyGo f rest

/-- `re.sub(r"ShinyShiny", "Shiny", s)`. -/
def subShinyStr (s : String) : String := ⟨subShinyGo s.data.length s.data⟩

/-- The per-name body of `remove_duplicate_prefixes`: the three substitutions
applied in source order. -/
def cleanName (s : String) : String := subShinyStr (sub3Str (sub1Str s))

/-- Lazy group scan for `re.match(r".*?File:(.*?)\.png(.*)", value)` after a
`File:` tag: find the smallest newline-free group followed by the literal
`.png`; the trailing greedy `(.*)` stops at the first newline. -/
def scanPng : Nat → List Char → List Char → Option (List Char × List Char)
  | 0, _, _ => none
  | _ + 1, _, [] => none
  | f + 1, acc, c :: rest =>
    if ".png".data.isPrefixOf (c :: rest) then
      some (acc.reverse, ((c :: rest).drop 4).takeWhile (fun x => !(x = '\n')))
    else if c = '\n' then none
    else scanPng f (c :: acc) rest

/-- `re.match(r".*?File:(.*?)\.png(.*)", value)`: the lazy `.*?` tries each
position left to right (never across a newline, since `.` excludes `\n`);
at a `File:` tag the groups are resolved by `scanPng`, and on failure the
scan resumes at the next position.  Returns `(group1, group2)` on success. -/
def findFile : Nat → List Char → Option (List Char × List Char)
  | 0, _ => none
  | _, [] => none
  | f + 1, c :: rest =>
    let l := c :: rest
    if "File:".data.isPrefixOf l then
      match scanPng l.length [] (l.drop 5) with
      | some r => some r
      | none => if c = '\n' then none else findFile f rest
    else if c = '\n' then none else findFile f rest

/-- An `img` element inside a cell: its `alt` and `src` attributes
(empty string when the attribute is missing, matching `img.get(..., "")`). -/
structure Img where
  alt : String
  src : String
deriving DecidableEq, Repr

/-- A table cell as used by `extract_all_tables`: its stripped visible text
(`cell.get_text(strip=True)`) and its first embedded image, if any. -/
structure HCell where
  text : String
  img : Option Img
deriving DecidableEq, Repr

/-- `src.split("/")[-1]`: the part of the string after the last slash. -/
def lastPathComponent (s : String) : String :=
  ⟨(s.data.reverse.takeWhile (fun c => !(c = '/'))).reverse⟩

/-- Cell-to-text resolution in `extract_all_tables`: an image with no visible
text resolves to its alt text, else to the last path component of its src;
otherwise the visible text is used. -/
def cellValue (c : HCell) : String :=
  match c.img with
  | some im =>
    if c.text = "" then (if im.alt ≠ "" then im.alt else lastPathComponent im.src)
    else c.text
  | none => c.text

/-- Header synthesis in `extract_all_tables`: each header cell's text, with an
empty text replaced by `"Column" + <1-based position>`. -/
def buildHeaders (cells : List HCell) : List String :=
  cells.foldl
    (fun acc c =>
      acc ++ [if c.text = "" then "Column" ++ toString (acc.length + 1) else c.text])
    []

/-- One dict assignment `acc[p.1] = p.2`. -/
def dsetStep (acc : Dict) (p : String × String) : Dict := dset acc p.1 p.2

/-- `row_data[headers[j]] = value` over all cells, in order, starting from an
empty dict. -/
def buildRowData (hs vs : List String) : Dict :=
  (hs.zip vs).foldl dsetStep []

/-- A table of the parsed document: its rows (each a list of cells) and the
stripped text of the nearest heading element preceding it, if one exists. -/
structure HTable where
  rows : List (List HCell)
  prevHeading : Option String
deriving DecidableEq, Repr

/-- The parsed document handed to `extract_all_tables`: the tab headings found
by the tab selectors, and all tables in document order. -/
structure Doc where
  tabHeadings : List String
  tables : List HTable
deriving DecidableEq, Repr

/-- Section naming in `extract_all_tables` for the table at 0-based index `i`:
start from the positional tab heading (or the `"Table N"` fallback), then let
a non-empty preceding heading override it. -/
def sectionName (tabs : List String) (i : Nat) (ph : Option String) : String :=
  let base := tabs.getD i ("Table " ++ toString (i + 1))
  match ph with
  | some h => if h ≠ "" then h else base
  | none => base

/-- The data-row loop of `extract_all_tables` for one table: rows whose cell
count differs from the header count are skipped; otherwise the row dict is
built, tagged with the section, validated, and kept only if validation leaves
it non-empty. -/
def tableRows (sec : String) (headers : List String) : List (List HCell) → List Dict
  | [] => []
  | cells :: rest =>
    if cells.length = headers.length then
      let vr := validate_data_row
        (dset (buildRowData headers (cells.map cellValue)) "Section" sec)
      if vr ≠ [] then vr :: tableRows sec headers rest
      else tableRows sec headers rest
    else tableRows sec headers rest

/-- Per-table step of `extract_all_tables`: a table with fewer than two rows is
skipped entirely; otherwise the first row yields the headers and the remaining
rows are processed. -/
def processTable (tabs : List String) (i : Nat) (t : HTable) : List Dict :=
  match t.rows with
  | hd :: r :: rest =>
    tableRows (sectionName tabs i t.prevHeading) (buildHeaders hd) (r :: rest)
  | _ => []

/-- The table enumeration of `extract_all_tables`, carrying the 0-based index. -/
def extractFrom (tabs : List String) : Nat → List HTable → List Dict
  | _, [] => []
  | i, t :: ts => processTable tabs i t ++ extractFrom tabs (i + 1) ts

/-- `extract_all_tables` from `scrape_anime_adventures_by_section.py`. -/
def extract_all_tables (d : Doc) : List Dict :=
  extractFrom d.tabHeadings 0 d.tables

/-- The column renaming of `clean_and_format_data` for non-name columns. -/
def cleanKeyName (k : String) : String :=
  if k = "a" ∨ k = "b" ∨ k = "c" ∨ k = "f" ∨ k = "g" ∨ k = "h" ∨ k = "i" ∨ k = "j"
      ∨ k = "k" ∨ k = "l" ∨ k = "m" ∨ k = "n" ∨ k = "o" then
    if k = "f" ∨ k = "g" then "Rarity"
    else if k = "h" ∨ k = "i" then "Tier"
    else if k = "j" then "Status"
    else if k = "l" ∨ k = "m" then "Value"
    else if k = "a" ∨ k = "b" ∨ k = "c" then "Quantity"
    else k
  else k

/-- `key.lower() in ["e", "d", "name"]` from `clean_and_format_data`. -/
def isNameLabel (k : String) : Bool :=
  pyToLower k = "e" || pyToLower k = "d" || pyToLower k = "name"

/-- The name-column branch of `clean_and_format_data` when the value contains
`File:`: on a regex match, set `File Name` to the stripped name group and
`Character Name` to the stripped trailing group if non-empty, else to the
stripped name group; on regex failure keep the entry unchanged. -/
def cleanNameFile (acc : Dict) (k v : String) : Dict :=
  match findFile v.data.length v.data with
  | some r =>
    let fn := pyStrip ⟨r.1⟩
    let acc1 := dset acc "File Name" fn
    let cn := pyStrip ⟨r.2⟩
    if cn ≠ "" then dset acc1 "Character Name" cn else dset acc1 "Character Name" fn
  | none => dset acc k v

/-- The per-row body of `clean_and_format_data`: start from the `Section`
entry, process every other entry (name columns via the `File:` split or the
duplicate collapse, other columns via the rename), and finally re-collapse a
`Character Name` entry with the word-boundary pattern. -/
def cleanStep (acc : Dict) (p : String × String) : Dict :=
  if p.1 = "Section" then acc
  else if isNameLabel p.1 ∧ pyIn "File:" p.2 then cleanNameFile acc p.1 p.2
  else if isNameLabel p.1 then dset acc "Character Name" (sub2Str p.2)
  else dset acc (cleanKeyName p.1) p.2

def cleanRow (row : Dict) : Dict :=
  let r := row.foldl cleanStep [("Section", (dget row "Section").getD "Unknown")]
  match dget r "Character Name" with
  | some cn => dset r "Character Name" (sub4Str cn)
  | none => r

/-- `clean_and_format_data` from `scrape_anime_adventures_by_section.py`. -/
def clean_and_format_data (data : List Dict) : List Dict := data.map cleanRow

/-- The Rarity backfill of `determine_categories`: only when `Rarity` is not
already present, derived from the uppercased tier. -/
def rarityBackfill (row : Dict) (tier : String) : Dict :=
  if dmem row "Rarity" then row
  else if tier = "S" then dset row "Rarity" "Legendary"
  else if tier = "A" then dset row "Rarity" "Epic"
  else if tier = "B" then dset row "Rarity" "Rare"
  else if tier = "C" ∨ tier = "C-" then dset row "Rarity" "Common"
  else row

/-- The Status backfill of `determine_categories`: only when `Status` is not
already present and the status source text contains "stable". -/
def statusBackfill (row : Dict) (status : String) : Dict :=
  if dmem row "Status" = false ∧ pyIn "stable" status then dset row "Status" "Stable"
  else row

/-- The per-row body of `determine_categories`. -/
def categorizeRow (row : Dict) : Dict :=
  let characterName := (dget row "Character Name").getD ""
  let fileName := (dget row "File Name").getD ""
  let tier := pyToUpper ((dget row "Tier").getD "")
  let status := pyToLower ((dget row "Status").getD "")
  let cat0 := (dget row "Section").getD "Unknown"
  let cat1 :=
    if tier = "S" ∨ tier = "A" ∨ tier = "B" ∨ tier = "C" ∨ tier = "C-" then
      tier ++ " Tier"
    else cat0
  let cat2 :=
    if pyIn "Secret" characterName || pyIn "Secret" fileName then "Secret Units"
    else if pyIn "Star" characterName || pyIn "Star" fileName then "Star Units"
    else if pyIn "relic" (pyToLower characterName) || pyIn "relic" (pyToLower fileName)
        || pyIn "artifact" (pyToLower characterName) || pyIn "artifact" (pyToLower fileName) then
      "Relics"
    else if pyIn "gamepass" (pyToLower characterName) || pyIn "gamepass" (pyToLower fileName)
        || pyIn "game pass" (pyToLower characterName) || pyIn "game pass" (pyToLower fileName) then
      "Game Pass"
    else cat1
  dset (statusBackfill (rarityBackfill row tier) status) "Category" cat2

/-- `determine_categories` from `scrape_anime_adventures_by_section.py`:
one output row appended per input row, in order. -/
def determine_categories : List Dict → List Dict
  | [] => []
  | r :: rs => categorizeRow r :: determine_categories rs

/-- `remove_duplicate_prefixes` from `scrape_anime_adventures_by_section.py`. -/
def remove_duplicate_prefixes (data : List Dict) : List Dict :=
  data.map
    (fun row =>
      match dget row "Character Name" with
      | some cn => dset row "Character Name" (cleanName cn)
      | none => row)

/-- `parse_table` from `scrape_anime_adventures_values.py`: the first row gives
the headers; each later row is kept only if its cell count equals the header
count, and is then the zip of headers and cells plus a `section` entry.
The empty-rows case cannot occur in the source (it indexes `rows[0]`
unconditionally). -/
def parse_table (rows : List (List String)) (sec : String) : List Dict :=
  match rows with
  | [] => []
  | headers :: trs =>
    trs.foldr
      (fun cols acc =>
        if cols.length = headers.length then
          dset (buildRowData headers cols) "section" sec :: acc
        else acc)
      []

/-- Outcome of a run: terminal no-data failure (nothing exported) or a report
built from the processed rows. -/
inductive RunOutcome where
  | noData : RunOutcome
  | report : List Dict → RunOutcome
deriving DecidableEq, Repr

/-- The processing pipeline of `main` after extraction:
clean, categorize, remove duplicate prefixes. -/
def finalData (all : List Dict) : List Dict :=
  remove_duplicate_prefixes (determine_categories (clean_and_format_data all))

/-- The data path of `main` in `scrape_anime_adventures_by_section.py`:
if extraction yields no rows the run stops with no artifact (`return False`
after the warning); otherwise the pipeline output is handed to the writer. -/
def runPipeline (d : Doc) : RunOutcome :=
  let all := extract_all_tables d
  if all = [] then RunOutcome.noData else RunOutcome.report (finalData all)

/-- The data path of `main` in `scrape_anime_adventures_values.py`: parse each
section's table, concatenate, and `sys.exit` with no output if nothing was
collected. -/
def runSections (secs : List (String × List (List String))) : RunOutcome :=
  let all := (secs.map (fun p => parse_table p.2 p.1)).flatten
  if all = [] then RunOutcome.noData else RunOutcome.report all

/-- A one-table, one-column, one-data-row document with header text `h` and
cell text `t` (no tabs, no preceding heading). -/
def oneColDoc (h t : String) : Doc :=
  Doc.mk [] [HTable.mk [[HCell.mk h none], [HCell.mk t none]] none]

/-- The Category assignment as the claim states the precedence (first match
wins, keyword rules over the Tier rule over the Section default), written from
the spec text for comparison with `categorizeRow`. -/
def claimedCategory (row : Dict) : String :=
  let characterName := (dget row "Character Name").getD ""
  let fileName := (dget row "File Name").getD ""
  let tier := pyToUpper ((dget row "Tier").getD "")
  if pyIn "Secret" characterName || pyIn "Secret" fileName then "Secret Units"
  else if pyIn "Star" characterName || pyIn "Star" fileName then "Star Units"
  else if pyIn "relic" (pyToLower characterName) || pyIn "relic" (pyToLower fileName)
      || pyIn "artifact" (pyToLower characterName) || pyIn "artifact" (pyToLower fileName) then
    "Relics"
  else if pyIn "gamepass" (pyToLower characterName) || pyIn "gamepass" (pyToLower fileName)
      || pyIn "game pass" (pyToLower characterName) || pyIn "game pass" (pyToLower fileName) then
    "Game Pass"
  else if tier = "S" ∨ tier = "A" ∨ tier = "B" ∨ tier = "C" ∨ tier = "C-" then
    tier ++ " Tier"
  else (dget row "Section").getD "Unknown"

/-! Dictionary lemmas. -/

theorem dget_dset_self (d : Dict) (k v : String) : dget (dset d k v) k = some v := by
  induction d with
  | nil => simp [dset, dget]
  | cons p rest ih =>
    by_cases h : p.1 = k
    · simp [dset, h, dget]
    · simp [dset, h, dget, ih]

theorem dget_dset_ne (d : Dict) (k' k v : String) (h : k' ≠ k) :
    dget (dset d k' v) k = dget d k := by
  induction d with
  | nil => simp [dset, dget, h]
  | cons p rest ih =>
    by_cases h1 : p.1 = k'
    · simp [dset, h1, dget, h]
    · by_cases h2 : p.1 = k
      · simp [dset, h1, dget, h2, Ne.symm h]
      · simp [dset, h1, dget, h2, ih]

theorem dmem_dset_ne (d : Dict) (k' k v : String) (h : k' ≠ k) :
    dmem (dset d k' v) k = dmem d k := by
  induction d with
  | nil => simp [dset, dmem, h]
  | cons p rest ih =>
    by_cases h1 : p.1 = k'
    · simp [dset, h1, dmem, h]
    · simp [dset, h1, dmem, ih]

theorem dget_eq_none_of_dmem_false (d : Dict) (k : String) (h : dmem d k = false) :
    dget d k = none := by
  induction d with
  | nil => simp [dget]
  | cons p rest ih =>
    simp only [dmem, Bool.or_eq_false_iff, decide_eq_false_iff_not] at h
    simp [dget, h.1, ih h.2]

theorem dmem_append (d₁ d₂ : Dict) (k : String) :
    dmem (d₁ ++ d₂) k = (dmem d₁ k || dmem d₂ k) := by
  induction d₁ with
  | nil => simp [dmem]
  | cons p rest ih => simp [dmem, ih, Bool.or_assoc]

theorem dmem_true_iff (d : Dict) (k : String) :
    dmem d k = true ↔ k ∈ d.map Prod.fst := by
  induction d with
  | nil => simp [dmem]
  | cons p rest ih =>
    simp only [dmem, Bool.or_eq_true, decide_eq_true_eq, List.map_cons, List.mem_cons, ih]
    exact or_congr ⟨Eq.symm, Eq.symm⟩ Iff.rfl

theorem dmem_false_iff (d : Dict) (k : String) :
    dmem d k = false ↔ k ∉ d.map Prod.fst := by
  rw [← dmem_true_iff]
  exact ⟨fun h => by simp [h], fun h => by simpa using h⟩

theorem dset_fresh (d : Dict) (k v : String) (h : dmem d k = false) :
    dset d k v = d ++ [(k, v)] := by
  induction d with
  | nil => simp [dset]
  | cons p rest ih =>
    simp only [dmem, Bool.or_eq_false_iff, decide_eq_false_iff_not] at h
    simp [dset, h.1, ih h.2]

theorem dset_preserves_forall (d : Dict) (k v : String) (P : String × String → Prop)
    (hd : ∀ p ∈ d, P p) (hkv : P (k, v)) : ∀ p ∈ dset d k v, P p := by
  induction d with
  | nil => simpa [dset] using hkv
  | cons q rest ih =>
    intro p hp
    by_cases h1 : q.1 = k
    · simp only [dset, h1, if_true] at hp
      rcases List.mem_cons.mp hp with hp | hp
      · exact hp ▸ hkv
      · exact hd p (List.mem_cons_of_mem _ hp)
    · simp only [dset, h1, if_false] at hp
      rcases List.mem_cons.mp hp with hp | hp
      · exact hp ▸ hd q (List.mem_cons_self _ _)
      · exact ih (fun r hr => hd r (List.mem_cons_of_mem _ hr)) p hp

/-! Fold lemmas: building a dict from entries with fresh keys is appending. -/

theorem foldl_dsetStep_fresh (ps : List (String × String)) :
    ∀ acc : Dict, (ps.map Prod.fst).Nodup →
    (∀ p ∈ ps, dmem acc p.1 = false) →
    ps.foldl dsetStep acc = acc ++ ps := by
  induction ps with
  | nil => intro acc _ _; simp
  | cons p rest ih =>
    intro acc hnd hfresh
    have hnd' := List.nodup_cons.mp (show (p.1 :: rest.map Prod.fst).Nodup from hnd)
    have h1 : dsetStep acc p = acc ++ [p] := by
      simpa [dsetStep] using dset_fresh acc p.1 p.2 (hfresh p (List.mem_cons_self _ _))
    simp only [List.foldl_cons, h1]
    rw [ih (acc ++ [p]) hnd'.2]
    · simp
    · intro q hq
      rw [dmem_append]
      have hqa : dmem acc q.1 = false := hfresh q (List.mem_cons_of_mem _ hq)
      have hne : p.1 ≠ q.1 := by
        intro he
        exact hnd'.1 (he ▸ List.mem_map_of_mem Prod.fst hq)
      simp [hqa, dmem, hne]

theorem buildRowData_eq_zip (hs vs : List String) (hnd : hs.Nodup)
    (hlen : vs.length = hs.length) : buildRowData hs vs = hs.zip vs := by
  unfold buildRowData
  rw [foldl_dsetStep_fresh (hs.zip vs) []]
  · simp
  · rw [List.map_fst_zip hs vs (le_of_eq hlen.symm)]
    exact hnd
  · intro p _; rfl

theorem foldl_sanStep_clean (f : String → String) (ps : List (String × String)) :
    ∀ acc : Dict,
    (ps.map (fun p => f p.1)).Nodup →
    (∀ p ∈ ps, dmem acc (f p.1) = false) →
    (∀ p ∈ ps, f p.1 ≠ "" ∧ f p.2 ≠ "") →
    ps.foldl (sanStep f) acc = acc ++ ps.map (fun p => (f p.1, f p.2)) := by
  induction ps with
  | nil => intro acc _ _ _; simp
  | cons p rest ih =>
    intro acc hnd hfresh hne
    have hnd' := List.nodup_cons.mp
      (show (f p.1 :: rest.map (fun q => f q.1)).Nodup from hnd)
    have hp := hne p (List.mem_cons_self _ _)
    have h1 : sanStep f acc p = acc ++ [(f p.1, f p.2)] := by
      unfold sanStep
      rw [if_pos hp]
      exact dset_fresh _ _ _ (hfresh p (List.mem_cons_self _ _))
    simp only [List.foldl_cons, h1]
    rw [ih (acc ++ [(f p.1, f p.2)]) hnd'.2]
    · rw [List.append_assoc]
      rfl
    · intro q hq
      rw [dmem_append]
      have hqa := hfresh q (List.mem_cons_of_mem _ hq)
      have hmem : f q.1 ∈ rest.map (fun r => f r.1) :=
        List.mem_map_of_mem (fun r => f r.1) hq
      have hne2 : f p.1 ≠ f q.1 := by
        intro he
        exact hnd'.1 (by rw [he]; exact hmem)
      rw [hqa]
      simp only [dmem, Bool.false_or, Bool.or_false, decide_eq_false hne2]
    · intro q hq
      exact hne q (List.mem_cons_of_mem _ hq)

theorem validate_data_row_clean (d : Dict)
    (hnd : (d.map (fun p => sanitize_input p.1)).Nodup)
    (hne : ∀ p ∈ d, sanitize_input p.1 ≠ "" ∧ sanitize_input p.2 ≠ "") :
    validate_data_row d = d.map (fun p => (sanitize_input p.1, sanitize_input p.2)) := by
  unfold validate_data_row
  have : d.foldl validateStep [] = d.foldl (sanStep sanitize_input) [] := rfl
  rw [this, foldl_sanStep_clean sanitize_input d [] hnd (fun p _ => rfl) hne]
  simp

/-! Properties of the sanitization chain. -/

theorem htmlEscapeChar_noBad (c : Char) : ∀ x ∈ htmlEscapeChar c, isBadChar x = false := by
  unfold htmlEscapeChar
  split_ifs with h1 h2 h3 h4 h5
  · decide
  · decide
  · decide
  · decide
  · decide
  · intro x hx
    rw [List.mem_singleton] at hx
    subst hx
    simp [isBadChar, h2, h3, h4, h5]

theorem htmlEscapeChar_length_pos (c : Char) : 1 ≤ (htmlEscapeChar c).length := by
  unfold htmlEscapeChar
  split_ifs <;> simp

theorem htmlEscape_noBad (l : List Char) : ∀ x ∈ htmlEscape l, isBadChar x = false := by
  intro x hx
  unfold htmlEscape at hx
  rcases List.mem_flatten.mp hx with ⟨bl, hbl, hxbl⟩
  rcases List.mem_map.mp hbl with ⟨c, _, rfl⟩
  exact htmlEscapeChar_noBad c x hxbl

theorem htmlEscape_length_ge (l : List Char) : l.length ≤ (htmlEscape l).length := by
  induction l with
  | nil => simp [htmlEscape]
  | cons c t ih =>
    have : htmlEscape (c :: t) = htmlEscapeChar c ++ htmlEscape t := by
      simp [htmlEscape]
    rw [this, List.length_append, List.length_cons]
    have := htmlEscapeChar_length_pos c
    omega

theorem stripBad_htmlEscape (l : List Char) : stripBad (htmlEscape l) = htmlEscape l := by
  unfold stripBad
  rw [List.filter_eq_self]
  intro a ha
  simp [htmlEscape_noBad l a ha]

theorem mem_stripBad_noBad (l : List Char) : ∀ c ∈ stripBad l, isBadChar c = false := by
  intro c hc
  have := List.of_mem_filter hc
  simpa using this

theorem mem_of_mem_dropWhile (p : Char → Bool) (l : List Char) :
    ∀ c ∈ l.dropWhile p, c ∈ l := by
  induction l with
  | nil => simp
  | cons a t ih =>
    intro c hc
    rw [List.dropWhile_cons] at hc
    by_cases h : p a
    · simp only [h, if_true] at hc
      exact List.mem_cons_of_mem _ (ih c hc)
    · simp only [h, if_false] at hc
      exact hc

theorem length_dropWhile_le' (p : Char → Bool) (l : List Char) :
    (l.dropWhile p).length ≤ l.length := by
  induction l with
  | nil => simp
  | cons a t ih =>
    rw [List.dropWhile_cons]
    by_cases h : p a
    · simp only [h, if_true]
      exact le_trans ih (by simp)
    · simp [h]

theorem mem_pyStripChars (l : List Char) : ∀ c ∈ pyStripChars l, c ∈ l := by
  intro c hc
  unfold pyStripChars at hc
  rw [List.mem_reverse] at hc
  have h1 := mem_of_mem_dropWhile isWhite _ c hc
  rw [List.mem_reverse] at h1
  exact mem_of_mem_dropWhile isWhite l c h1

theorem pyStripChars_length_le (l : List Char) : (pyStripChars l).length ≤ l.length := by
  unfold pyStripChars
  rw [List.length_reverse]
  calc ((l.dropWhile isWhite).reverse.dropWhile isWhite).length
      ≤ (l.dropWhile isWhite).reverse.length := length_dropWhile_le' _ _
    _ = (l.dropWhile isWhite).length := List.length_reverse _
    _ ≤ l.length := length_dropWhile_le' _ _

theorem mem_truncate1000 (l : List Char) : ∀ c ∈ truncate1000 l, c ∈ l ∨ c = '.' := by
  intro c hc
  unfold truncate1000 at hc
  split_ifs at hc with h
  · rcases List.mem_append.mp hc with hc | hc
    · exact Or.inl (List.mem_of_mem_take hc)
    · right
      have h3 : c ∈ ['.', '.', '.'] := hc
      simpa using h3
  · exact Or.inl hc

theorem truncate1000_length_le (l : List Char) : (truncate1000 l).length ≤ 1003 := by
  unfold truncate1000
  split_ifs with h
  · rw [List.length_append, List.length_take]
    have h3 : ("...".data).length = 3 := rfl
    omega
  · omega

theorem sanitize_input_noBad (s : String) :
    ∀ c ∈ (sanitize_input s).data, isBadChar c = false := by
  intro c hc
  unfold sanitize_input at hc
  simp only at hc
  have h1 := mem_pyStripChars _ c hc
  rcases mem_truncate1000 _ c h1 with h2 | h2
  · exact mem_stripBad_noBad _ c h2
  · subst h2
    decide

theorem sanitize_input_length_le (s : String) : (sanitize_input s).length ≤ 1003 := by
  unfold sanitize_input String.length
  simp only
  exact le_trans (pyStripChars_length_le _) (truncate1000_length_le _)

theorem sanitize_input_trunc (s : String) (h : 1000 < s.length) :
    sanitize_input s = pyStrip ⟨(htmlEscape s.data).take 1000 ++ "...".data⟩ := by
  unfold sanitize_input pyStrip truncate1000
  rw [stripBad_htmlEscape]
  have hlen : 1000 < (htmlEscape s.data).length :=
    lt_of_lt_of_le h (htmlEscape_length_ge s.data)
  rw [if_pos hlen]

theorem foldl_sanStep_forall (f : String → String) (P : String × String → Prop)
    (hsan : ∀ s t : String, f s ≠ "" → f t ≠ "" → P (f s, f t)) (ps : List (String × String)) :
    ∀ acc : Dict, (∀ p ∈ acc, P p) → ∀ p ∈ ps.foldl (sanStep f) acc, P p := by
  induction ps with
  | nil => intro acc hacc p hp; exact hacc p hp
  | cons q rest ih =>
    intro acc hacc
    simp only [List.foldl_cons]
    apply ih
    unfold sanStep
    split_ifs with h
    · exact dset_preserves_forall acc _ _ P hacc (hsan q.1 q.2 h.1 h.2)
    · exact hacc

theorem validate_entries_invariant (d : Dict) :
    ∀ p ∈ validate_data_row d,
      p.1 ≠ "" ∧ p.2 ≠ "" ∧ p.1.length ≤ 1003 ∧ p.2.length ≤ 1003 ∧
      (∀ c ∈ p.1.data, isBadChar c = false) ∧ (∀ c ∈ p.2.data, isBadChar c = false) := by
  have hrw : validate_data_row d = d.foldl (sanStep sanitize_input) [] := rfl
  rw [hrw]
  exact foldl_sanStep_forall sanitize_input
    (fun p => p.1 ≠ "" ∧ p.2 ≠ "" ∧ p.1.length ≤ 1003 ∧ p.2.length ≤ 1003 ∧
      (∀ c ∈ p.1.data, isBadChar c = false) ∧ (∀ c ∈ p.2.data, isBadChar c = false))
    (fun s t hs ht => ⟨hs, ht, sanitize_input_length_le s, sanitize_input_length_le t,
      sanitize_input_noBad s, sanitize_input_noBad t⟩)
    d [] (by simp)

/-! Length monotonicity of the duplicate-word substitutions. -/

theorem length_takeWhile_le' (p : Char → Bool) (l : List Char) :
    (l.takeWhile p).length ≤ l.length := by
  induction l with
  | nil => simp
  | cons a t ih =>
    rw [List.takeWhile_cons]
    by_cases h : p a
    · simp only [h, if_true, List.length_cons]
      omega
    · simp [h]

theorem findL_some_bounds (run : List Char) :
    ∀ b L : Nat, findL b run = some L → 1 ≤ L ∧ L ≤ b := by
  intro b
  induction b with
  | zero => intro L h; simp [findL] at h
  | succ n ih =>
    intro L h
    unfold findL at h
    split_ifs at h with hc
    · injection h with h2
      omega
    · have := ih L h
      omega

theorem sub1Go_length (fuel : Nat) : ∀ l : List Char, (sub1Go fuel l).length ≤ l.length := by
  induction fuel with
  | zero => intro l; simp [sub1Go]
  | succ f ih =>
    intro l
    match l with
    | [] => simp [sub1Go]
    | c :: rest =>
      rw [sub1Go]
      by_cases hw : isWordChar c
      · rw [if_pos hw]
        cases hfl : findL (((c :: rest).takeWhile isWordChar).length / 2)
            ((c :: rest).takeWhile isWordChar) with
        | none =>
          simp only [hfl, List.length_cons]
          have := ih rest
          omega
        | some L =>
          simp only [hfl, List.length_append, List.length_take, List.length_cons]
          have hb := findL_some_bounds _ _ _ hfl
          have hrun : ((c :: rest).takeWhile isWordChar).length ≤ (c :: rest).length :=
            length_takeWhile_le' _ _
          have hmul : L ≤ (countCopies ((c :: rest).takeWhile isWordChar).length
              (((c :: rest).takeWhile isWordChar).take L)
              (((c :: rest).takeWhile isWordChar).drop L) + 1) * L :=
            Nat.le_mul_of_pos_left L (Nat.succ_pos _)
          have hrec := ih ((c :: rest).drop
            ((countCopies ((c :: rest).takeWhile isWordChar).length
              (((c :: rest).takeWhile isWordChar).take L)
              (((c :: rest).takeWhile isWordChar).drop L) + 1) * L))
          rw [List.length_drop] at hrec
          simp only [List.length_cons] at hrec hrun ⊢
          omega
      · rw [if_neg hw]
        simp only [List.length_cons]
        have := ih rest
        omega

theorem sub3Go_length (fuel : Nat) :
    ∀ (b : Bool) (l : List Char), (sub3Go fuel b l).length ≤ l.length := by
  induction fuel with
  | zero => intro b l; simp [sub3Go]
  | succ f ih =>
    intro b l
    match l with
    | [] => simp [sub3Go]
    | c :: rest =>
      rw [sub3Go]
      by_cases hw : isWordChar c ∧ b = false
      · rw [if_pos hw]
        by_cases hm : 1 ≤ (((c :: rest).drop ((c :: rest).takeWhile isWordChar).length).takeWhile isWhite).length ∧
            ((c :: rest).takeWhile isWordChar).isPrefixOf
              (((c :: rest).drop ((c :: rest).takeWhile isWordChar).length).drop
                (((c :: rest).drop ((c :: rest).takeWhile isWordChar).length).takeWhile isWhite).length) ∧
            atWordBoundary
              ((((c :: rest).drop ((c :: rest).takeWhile isWordChar).length).drop
                (((c :: rest).drop ((c :: rest).takeWhile isWordChar).length).takeWhile isWhite).length).drop
                ((c :: rest).takeWhile isWordChar).length) = true
        · rw [if_pos hm]
          rw [List.length_append]
          have hrun : ((c :: rest).takeWhile isWordChar).length ≤ (c :: rest).length :=
            length_takeWhile_le' _ _
          have hrec := ih true ((((c :: rest).drop ((c :: rest).takeWhile isWordChar).length).drop
            (((c :: rest).drop ((c :: rest).takeWhile isWordChar).length).takeWhile isWhite).length).drop
            ((c :: rest).takeWhile isWordChar).length)
          simp only [List.length_drop] at hrec
          omega
        · rw [if_neg hm]
          simp only [List.length_cons]
          have := ih true rest
          omega
      · simp only [if_neg hw, List.length_cons]
        have := ih (isWordChar c) rest
        omega

theorem subShinyGo_length (fuel : Nat) : ∀ l : List Char, (subShinyGo fuel l).length ≤ l.length := by
  induction fuel with
  | zero => intro l; simp [subShinyGo]
  | succ f ih =>
    intro l
    match l with
    | [] => simp [subShinyGo]
    | c :: rest =>
      rw [subShinyGo]
      by_cases hp : "ShinyShiny".data.isPrefixOf (c :: rest)
      · rw [if_pos hp]
        have hlen : 10 ≤ (c :: rest).length := by
          have := (List.isPrefixOf_iff_prefix.mp hp).length_le
          simpa using this
        have hrec := ih ((c :: rest).drop 10)
        rw [List.length_drop] at hrec
        simp only [List.length_cons] at hrec hlen
        simp only [List.length_append, List.length_cons, List.length_nil]
        omega
      · rw [if_neg hp]
        simp only [List.length_cons]
        have := ih rest
        omega

theorem cleanName_length_le (s : String) : (cleanName s).length ≤ s.length := by
  unfold cleanName subShinyStr sub3Str sub1Str String.length
  simp only
  calc (subShinyGo (sub3Go (sub1Go s.data.length s.data).length false
          (sub1Go s.data.length s.data)).length
        (sub3Go (sub1Go s.data.length s.data).length false (sub1Go s.data.length s.data))).length
      ≤ (sub3Go (sub1Go s.data.length s.data).length false (sub1Go s.data.length s.data)).length :=
        subShinyGo_length _ _
    _ ≤ (sub1Go s.data.length s.data).length := sub3Go_length _ _ _
    _ ≤ s.data.length := sub1Go_length _ _

/-! Claim C2. -/

/-- C2 counterexample: the Text Cleaner's duplicate-word collapse is not
idempotent: on the input "aaaa" one application yields "aa" but a second
application yields "a", so clean(clean(x)) differs from clean(x). -/
theorem C2_not_idempotent_counterexample :
    cleanName (cleanName "aaaa") ≠ cleanName "aaaa"
      ∧ cleanName "aaaa" = "aa" ∧ cleanName (cleanName "aaaa") = "a" := by
  refine ⟨?_, ?_, ?_⟩ <;> decide

/-- C2 (amended): applying the Text Cleaner's duplicate-word collapse twice
can collapse further than applying it once; a second application never
lengthens the result of the first. -/
theorem C2_second_pass_never_lengthens (x : String) :
    (cleanName (cleanName x)).length ≤ (cleanName x).length :=
  cleanName_length_le (cleanName x)

/-! Claim C6. -/

/-- C6: the Row Classifier is deterministic, and its rules apply in order
with later rules overriding earlier ones: the Category written by
`categorizeRow` is exactly the first-match-wins cascade `claimedCategory`
(keyword rules over the case-insensitive Tier rule over the Section default). -/
theorem C6_classifier_rule_order (row : Dict) :
    dget (categorizeRow row) "Category" = some (claimedCategory row)
      ∧ (∀ row2 : Dict, row = row2 → categorizeRow row = categorizeRow row2) := by
  constructor
  · show dget (dset _ "Category" _) "Category" = _
    rw [dget_dset_self]
    rfl
  · intro row2 h
    rw [h]

/-- C6 witness: a concrete row where the Secret keyword overrides both the
Tier rule and the Section default. -/
theorem C6_classifier_rule_order_witness :
    dget (categorizeRow [("Character Name", "Secret Goku"), ("Tier", "s"), ("Section", "X")])
        "Category" = some "Secret Units"
      ∧ categorizeRow [("Character Name", "Secret Goku"), ("Tier", "s"), ("Section", "X")]
        = categorizeRow [("Character Name", "Secret Goku"), ("Tier", "s"), ("Section", "X")] := by
  have h := C6_classifier_rule_order
    [("Character Name", "Secret Goku"), ("Tier", "s"), ("Section", "X")]
  refine ⟨?_, h.2 _ rfl⟩
  rw [h.1]
  decide

/-! Claims C7 and C9: backfill helper lemmas. -/

theorem rarityBackfill_dmem (row : Dict) (t k : String) (h : k ≠ "Rarity") :
    dmem (rarityBackfill row t) k = dmem row k := by
  unfold rarityBackfill
  split_ifs <;> first
    | rfl
    | exact dmem_dset_ne row "Rarity" k _ (Ne.symm h)

theorem rarityBackfill_dget (row : Dict) (t k : String) (h : k ≠ "Rarity") :
    dget (rarityBackfill row t) k = dget row k := by
  unfold rarityBackfill
  split_ifs <;> first
    | rfl
    | exact dget_dset_ne row "Rarity" k _ (Ne.symm h)

theorem statusBackfill_dget (row : Dict) (st k : String) (h : k ≠ "Status") :
    dget (statusBackfill row st) k = dget row k := by
  unfold statusBackfill
  split_ifs with hc
  · exact dget_dset_ne row "Status" k _ (Ne.symm h)
  · rfl

/-- C7: the Status backfill of the Row Classifier is unreachable: the status
source text is read from the row's own `Status` field, so for every input row
the output `Status` equals the input `Status`; in particular a row lacking
`Status` never leaves the classifier with `Status` set to "Stable". -/
theorem C7_status_backfill_unreachable :
    (∀ row : Dict, dget (categorizeRow row) "Status" = dget row "Status")
      ∧ dget (categorizeRow [("Section", "Stats"), ("Tier", "S")]) "Status" = none := by
  constructor
  · intro row
    show dget (dset _ "Category" _) "Status" = _
    rw [dget_dset_ne _ "Category" "Status" _ (by decide)]
    have hmem : dmem (rarityBackfill row (pyToUpper ((dget row "Tier").getD ""))) "Status"
        = dmem row "Status" :=
      rarityBackfill_dmem row _ "Status" (by decide)
    unfold statusBackfill
    split_ifs with hc
    · exfalso
      rw [hmem] at hc
      rw [dget_eq_none_of_dmem_false row "Status" hc.1] at hc
      exact absurd hc.2 (by decide)
    · exact rarityBackfill_dget row _ "Status" (by decide)
  · decide

/-! Claim C9. -/

/-- C9: the Row Classifier emits exactly one output row per input row, in the
same order, and modifies only the fields `Category`, `Rarity` and `Status`:
every other key keeps exactly its input value. -/
theorem C9_classifier_frame :
    (∀ rows : List Dict, determine_categories rows = rows.map categorizeRow)
      ∧ (∀ rows : List Dict, (determine_categories rows).length = rows.length)
      ∧ (∀ (row : Dict) (k : String), k ≠ "Category" → k ≠ "Rarity" → k ≠ "Status" →
          dget (categorizeRow row) k = dget row k) := by
  have h1 : ∀ rows : List Dict, determine_categories rows = rows.map categorizeRow := by
    intro rows
    induction rows with
    | nil => rfl
    | cons r rs ih => simp [determine_categories, ih]
  refine ⟨h1, fun rows => by rw [h1 rows, List.length_map], ?_⟩
  intro row k hC hR hS
  show dget (dset _ "Category" _) k = _
  rw [dget_dset_ne _ "Category" k _ (Ne.symm hC)]
  rw [statusBackfill_dget _ _ k hS]
  exact rarityBackfill_dget row _ k hR

/-- C9 witness: the frame condition evaluated at a concrete row and key. -/
theorem C9_classifier_frame_witness :
    dget (categorizeRow [("Character Name", "Goku"), ("Section", "S Tier")]) "Character Name"
      = dget [("Character Name", "Goku"), ("Section", "S Tier")] "Character Name" :=
  C9_classifier_frame.2.2 [("Character Name", "Goku"), ("Section", "S Tier")]
    "Character Name" (by decide) (by decide) (by decide)

/-! Claim C8. -/

/-- C8: zero rows across the whole document is a terminal failure producing no
artifact, and extraction is otherwise total; the per-table recoverable
conditions (a table with fewer than two rows, a data row with mismatched cell
count) only drop the table or row locally and never terminate the run, in both
scripts. -/
theorem C8_no_data_terminal :
    (∀ d : Doc, extract_all_tables d = [] → runPipeline d = RunOutcome.noData)
      ∧ (∀ d : Doc, extract_all_tables d ≠ [] →
          runPipeline d = RunOutcome.report (finalData (extract_all_tables d)))
      ∧ (∀ (tabs : List String) (i : Nat) (t : HTable) (ts : List HTable),
          t.rows.length < 2 → extractFrom tabs i (t :: ts) = extractFrom tabs (i + 1) ts)
      ∧ (∀ (sec : String) (hs : List String) (c : List HCell) (rest : List (List HCell)),
          c.length ≠ hs.length → tableRows sec hs (c :: rest) = tableRows sec hs rest)
      ∧ (∀ secs : List (String × List (List String)),
          (secs.map (fun p => parse_table p.2 p.1)).flatten = [] →
          runSections secs = RunOutcome.noData) := by
  refine ⟨?_, ?_, ?_, ?_, ?_⟩
  · intro d h
    simp [runPipeline, h]
  · intro d h
    simp [runPipeline, h]
  · intro tabs i t ts hlt
    have hpt : processTable tabs i t = [] := by
      cases hr : t.rows with
      | nil =>
        unfold processTable
        rw [hr]
      | cons a tl =>
        cases tl with
        | nil =>
          unfold processTable
          rw [hr]
        | cons b r =>
          rw [hr] at hlt
          simp at hlt
          omega
    show processTable tabs i t ++ extractFrom tabs (i + 1) ts = extractFrom tabs (i + 1) ts
    rw [hpt]
    rfl
  · intro sec hs c rest h
    conv_lhs => rw [tableRows]
    rw [if_neg h]
  · intro secs h
    simp [runSections, h]

/-- C8 witness: the empty document terminates with no data; a one-row document
succeeds; a too-short table and a mismatched row are skipped locally; the
sectioned script terminates with no data on an empty parse. -/
theorem C8_no_data_terminal_witness :
    runPipeline (Doc.mk [] []) = RunOutcome.noData
      ∧ runPipeline (oneColDoc "Name" "Goku")
        = RunOutcome.report (finalData (extract_all_tables (oneColDoc "Name" "Goku")))
      ∧ extractFrom [] 0 [HTable.mk [] none] = extractFrom [] 1 []
      ∧ tableRows "S" ["A", "B"] [[HCell.mk "x" none]] = tableRows "S" ["A", "B"] []
      ∧ runSections [("Game_Pass", [["Name"]])] = RunOutcome.noData :=
  ⟨C8_no_data_terminal.1 (Doc.mk [] []) rfl,
   C8_no_data_terminal.2.1 (oneColDoc "Name" "Goku") (by decide),
   C8_no_data_terminal.2.2.1 [] 0 (HTable.mk [] none) [] (by decide),
   C8_no_data_terminal.2.2.2.1 "S" ["A", "B"] [HCell.mk "x" none] [] (by decide),
   C8_no_data_terminal.2.2.2.2 [("Game_Pass", [["Name"]])] (by decide)⟩

/-! Claim C3. -/

/-- C3 counterexample: with an explicit tab marker "Game Pass" (an expected
section name) available for the first table, a preceding heading "Skins" still
wins: the code gives the heading priority over the tab marker, not the other
way around, and no allow-list is consulted. -/
theorem C3_heading_overrides_tab_counterexample :
    sectionName ["Game Pass"] 0 (some "Skins") = "Skins"
      ∧ dget ((extract_all_tables (Doc.mk ["Game Pass"]
          [HTable.mk [[HCell.mk "Name" none], [HCell.mk "Goku" none]] (some "Skins")])).getD 0 [])
          "Section" = some "Skins" := by
  refine ⟨by decide, by decide⟩

/-- C3 (amended): the Section label precedence is (a) the text of the nearest
preceding heading when it exists and is non-empty; else (b) the positional tab
heading when the table index is within the tab list (no allow-list check);
else (c) the fallback "Table " + 1-based index. -/
theorem C3_section_label_precedence (tabs : List String) (i : Nat) (ph : Option String) :
    (∀ h : String, ph = some h → h ≠ "" → sectionName tabs i ph = h)
      ∧ ((ph = none ∨ ph = some "") → i < tabs.length → sectionName tabs i ph = tabs.getD i "")
      ∧ ((ph = none ∨ ph = some "") → tabs.length ≤ i →
          sectionName tabs i ph = "Table " ++ toString (i + 1)) := by
  refine ⟨?_, ?_, ?_⟩
  · intro h hph hne
    subst hph
    simp [sectionName, hne]
  · rintro (rfl | rfl) hlt <;>
      simp [sectionName, List.getD, List.getElem?_eq_getElem hlt]
  · rintro (rfl | rfl) hge <;>
      simp [sectionName, List.getD, List.getElem?_eq_none hge]

/-- C3 witness: the precedence theorem evaluated at concrete inputs for each
of its three branches. -/
theorem C3_section_label_precedence_witness :
    sectionName [] 0 (some "Skins") = "Skins"
      ∧ sectionName ["Game Pass"] 0 none = ["Game Pass"].getD 0 ""
      ∧ sectionName [] 5 none = "Table " ++ toString (5 + 1) :=
  ⟨(C3_section_label_precedence [] 0 (some "Skins")).1 "Skins" rfl (by decide),
   (C3_section_label_precedence ["Game Pass"] 0 none).2.1 (Or.inl rfl) (by decide),
   (C3_section_label_precedence [] 5 none).2.2 (Or.inl rfl) (by decide)⟩

/-! Claim C1. -/

theorem retained_row_eq (sec : String) (hs vals : List String)
    (hlen : vals.length = hs.length) (hnd : hs.Nodup) (hsec : "Section" ∉ hs)
    (hsannd : (hs.map sanitize_input).Nodup)
    (hsansec : "Section" ∉ hs.map sanitize_input)
    (hhne : ∀ h ∈ hs, sanitize_input h ≠ "")
    (hvne : ∀ v ∈ vals, sanitize_input v ≠ "")
    (hsne : sanitize_input sec ≠ "") :
    validate_data_row (dset (buildRowData hs vals) "Section" sec)
      = (hs.map sanitize_input).zip (vals.map sanitize_input)
        ++ [("Section", sanitize_input sec)] := by
  have hS : sanitize_input "Section" = "Section" := by decide
  have hzip : buildRowData hs vals = hs.zip vals := buildRowData_eq_zip hs vals hnd hlen
  have hfst : (hs.zip vals).map Prod.fst = hs := List.map_fst_zip hs vals (le_of_eq hlen.symm)
  have hmem : dmem (hs.zip vals) "Section" = false := by
    rw [dmem_false_iff, hfst]
    exact hsec
  have hkeys : ((hs.zip vals ++ [("Section", sec)]).map (fun p => sanitize_input p.1))
      = hs.map sanitize_input ++ ["Section"] := by
    rw [List.map_append]
    have h1 : (hs.zip vals).map (fun p => sanitize_input p.1) = hs.map sanitize_input := by
      show (hs.zip vals).map (sanitize_input ∘ Prod.fst) = _
      rw [← List.map_map, hfst]
    have h2 : ([("Section", sec)] : Dict).map (fun p => sanitize_input p.1) = ["Section"] := by
      simp [hS]
    rw [h1, h2]
  rw [hzip, dset_fresh _ _ _ hmem]
  rw [validate_data_row_clean]
  · rw [List.map_append]
    have h3 : (hs.zip vals).map (fun p => (sanitize_input p.1, sanitize_input p.2))
        = (hs.map sanitize_input).zip (vals.map sanitize_input) := by
      show (hs.zip vals).map (Prod.map sanitize_input sanitize_input) = _
      rw [← List.zip_map]
    have h4 : ([("Section", sec)] : Dict).map (fun p => (sanitize_input p.1, sanitize_input p.2))
        = [("Section", sanitize_input sec)] := by
      simp [hS]
    rw [h3, h4]
  · rw [hkeys]
    simp only [List.nodup_append, List.nodup_cons, List.not_mem_nil, List.nodup_nil,
      not_false_iff, true_and, and_true, List.disjoint_singleton]
    exact ⟨hsannd, by simpa using hsansec⟩
  · intro p hp
    rcases List.mem_append.mp hp with hp | hp
    · obtain ⟨a, b⟩ := p
      have hm := List.of_mem_zip hp
      exact ⟨hhne a hm.1, hvne b hm.2⟩
    · rw [List.mem_singleton] at hp
      subst hp
      exact ⟨(by decide : sanitize_input "Section" ≠ ""), hsne⟩

/-- C1 counterexample: a retained row is not the bare header-to-cell mapping:
the extractor adds a "Section" entry, so the retained row for a 2-header table
has 3 entries, not 2. -/
theorem C1_section_entry_added_counterexample :
    extract_all_tables (Doc.mk [] [HTable.mk
        [[HCell.mk "Name" none, HCell.mk "Value" none],
         [HCell.mk "Goku" none, HCell.mk "100" none]] none])
      = [[("Name", "Goku"), ("Value", "100"), ("Section", "Table 1")]]
      ∧ (buildHeaders [HCell.mk "Name" none, HCell.mk "Value" none]).length = 2
      ∧ ([("Name", "Goku"), ("Value", "100"), ("Section", "Table 1")] : Dict).length = 3 := by
  refine ⟨by decide, by decide, by decide⟩

/-- C1 (amended): a data row passes the shape filter iff its cell count equals
the header count (mismatched rows are dropped); a retained row is the mapping
sanitized-header to sanitized-cell plus an added "Section" entry, with entries
whose key or value sanitize to empty removed, so that under distinct non-empty
sanitized headers distinct from "Section" it has header count + 1 entries.  In
`parse_table` the retained row is the raw zip plus an added "section" entry. -/
theorem C1_retained_row_shape :
    (∀ (sec : String) (hs : List String) (cells : List HCell) (rest : List (List HCell)),
      cells.length = hs.length → hs.Nodup → "Section" ∉ hs →
      (hs.map sanitize_input).Nodup → "Section" ∉ hs.map sanitize_input →
      (∀ h ∈ hs, sanitize_input h ≠ "") →
      (∀ c ∈ cells, sanitize_input (cellValue c) ≠ "") →
      sanitize_input sec ≠ "" →
      tableRows sec hs (cells :: rest)
        = ((hs.map sanitize_input).zip ((cells.map cellValue).map sanitize_input)
            ++ [("Section", sanitize_input sec)]) :: tableRows sec hs rest
      ∧ ((hs.map sanitize_input).zip ((cells.map cellValue).map sanitize_input)
            ++ [("Section", sanitize_input sec)]).length = hs.length + 1)
      ∧ (∀ (sec : String) (hs : List String) (c : List HCell) (rest : List (List HCell)),
          c.length ≠ hs.length → tableRows sec hs (c :: rest) = tableRows sec hs rest)
      ∧ (∀ (hsp cols : List String) (trs : List (List String)) (secp : String),
          hsp.Nodup → "section" ∉ hsp → cols.length = hsp.length →
          parse_table (hsp :: cols :: trs) secp
            = (hsp.zip cols ++ [("section", secp)]) :: parse_table (hsp :: trs) secp
          ∧ (hsp.zip cols ++ [("section", secp)]).length = hsp.length + 1)
      ∧ (∀ (hsp cols : List String) (trs : List (List String)) (secp : String),
          cols.length ≠ hsp.length →
          parse_table (hsp :: cols :: trs) secp = parse_table (hsp :: trs) secp) := by
  refine ⟨?_, ?_, ?_, ?_⟩
  · intro sec hs cells rest hlen hnd hsec hsannd hsansec hhne hcne hsne
    have hvals : (cells.map cellValue).length = hs.length := by
      rw [List.length_map]
      exact hlen
    have hvne : ∀ v ∈ cells.map cellValue, sanitize_input v ≠ "" := by
      intro v hv
      rcases List.mem_map.mp hv with ⟨c, hc, rfl⟩
      exact hcne c hc
    have hre := retained_row_eq sec hs (cells.map cellValue) hvals hnd hsec hsannd
      hsansec hhne hvne hsne
    have hlen2 : ((hs.map sanitize_input).zip ((cells.map cellValue).map sanitize_input)
        ++ [("Section", sanitize_input sec)]).length = hs.length + 1 := by
      rw [List.length_append, List.length_zip, List.length_map, List.length_map,
        List.length_map, hlen]
      simp
    refine ⟨?_, hlen2⟩
    conv_lhs => rw [tableRows]
    rw [if_pos hlen, hre, if_pos (by simp)]
  · intro sec hs c rest h
    conv_lhs => rw [tableRows]
    rw [if_neg h]
  · intro hsp cols trs secp hnd hsec hlen
    have hzip : buildRowData hsp cols = hsp.zip cols := buildRowData_eq_zip hsp cols hnd hlen
    have hfst : (hsp.zip cols).map Prod.fst = hsp := List.map_fst_zip hsp cols (le_of_eq hlen.symm)
    have hmem : dmem (hsp.zip cols) "section" = false := by
      rw [dmem_false_iff, hfst]
      exact hsec
    constructor
    · show (if cols.length = hsp.length then _ else _) = _
      rw [if_pos hlen, hzip, dset_fresh _ _ _ hmem]
      rfl
    · rw [List.length_append, List.length_zip, hlen]
      simp
  · intro hsp cols trs secp h
    show (if cols.length = hsp.length then _ else _) = _
    rw [if_neg h]
    rfl

/-- C1 witness: the amended row-shape theorem evaluated at a concrete
two-column table and at a concrete one-column `parse_table` input. -/
theorem C1_retained_row_shape_witness :
    tableRows "S Tier" ["Name", "Value"] [[HCell.mk "Goku" none, HCell.mk "100" none]]
      = ((["Name", "Value"].map sanitize_input).zip
          (([HCell.mk "Goku" none, HCell.mk "100" none].map cellValue).map sanitize_input)
          ++ [("Section", sanitize_input "S Tier")])
        :: tableRows "S Tier" ["Name", "Value"] []
      ∧ parse_table [["Name"], ["Goku"]] "S_Tier"
        = (["Name"].zip ["Goku"] ++ [("section", "S_Tier")]) :: parse_table [["Name"]] "S_Tier" :=
  ⟨(C1_retained_row_shape.1 "S Tier" ["Name", "Value"]
      [HCell.mk "Goku" none, HCell.mk "100" none] [] (by decide) (by decide) (by decide)
      (by decide) (by decide) (by decide) (by decide) (by decide)).1,
   (C1_retained_row_shape.2.2.1 ["Name"] ["Goku"] [] "S_Tier"
      (by decide) (by decide) (by decide)).1⟩

/-! Claim C10. -/

/-- C10: every retained entry has a non-empty sanitized key and value of at
most 1003 characters containing none of the dangerous characters; over-long
escaped text is truncated to 1000 characters plus "..." before the final
strip; and a row all of whose entries sanitize to empty is dropped entirely. -/
theorem C10_sanitization_invariant :
    (∀ (d : Dict) (p : String × String), p ∈ validate_data_row d →
      p.1 ≠ "" ∧ p.2 ≠ "" ∧ p.1.length ≤ 1003 ∧ p.2.length ≤ 1003 ∧
      (∀ c ∈ p.1.data, isBadChar c = false) ∧ (∀ c ∈ p.2.data, isBadChar c = false))
      ∧ (∀ s : String, 1000 < s.length →
          sanitize_input s = pyStrip ⟨(htmlEscape s.data).take 1000 ++ "...".data⟩)
      ∧ (∀ (sec : String) (hs : List String) (cells : List HCell) (rest : List (List HCell)),
          cells.length = hs.length →
          validate_data_row (dset (buildRowData hs (cells.map cellValue)) "Section" sec) = [] →
          tableRows sec hs (cells :: rest) = tableRows sec hs rest) := by
  refine ⟨?_, ?_, ?_⟩
  · intro d p hp
    exact validate_entries_invariant d p hp
  · exact sanitize_input_trunc
  · intro sec hs cells rest hlen hval
    conv_lhs => rw [tableRows]
    rw [if_pos hlen, hval, if_neg (by simp)]

set_option maxRecDepth 4000 in
/-- C10 witness: the invariant evaluated on a concrete retained entry, the
truncation equation on a 1001-character string, and the dropped all-empty row
(empty section name and whitespace-only cell). -/
theorem C10_sanitization_invariant_witness :
    (("Name", "Goku") ∈ validate_data_row [("Name", "Goku")]
      ∧ ("Name" : String) ≠ "" ∧ ("Goku" : String).length ≤ 1003)
      ∧ sanitize_input (String.mk (List.replicate 1001 'x'))
        = pyStrip ⟨(htmlEscape (String.mk (List.replicate 1001 'x')).data).take 1000 ++ "...".data⟩
      ∧ tableRows "" ["h"] [[HCell.mk "  " none]] = tableRows "" ["h"] [] := by
  have h1 := C10_sanitization_invariant.1 [("Name", "Goku")] ("Name", "Goku") (by decide)
  refine ⟨⟨by decide, h1.1, h1.2.2.2.1⟩, ?_, ?_⟩
  · exact C10_sanitization_invariant.2.1 (String.mk (List.replicate 1001 'x'))
      (by simp [String.length])
  · exact C10_sanitization_invariant.2.2 "" ["h"] [HCell.mk "  " none] [] (by decide) (by decide)

/-! Claim C4: helper lemmas about one cleaner step. -/

theorem cleanStep_other (acc : Dict) (k v : String) (hk : k ≠ "Section")
    (hn : isNameLabel k = false) :
    cleanStep acc (k, v) = dset acc (cleanKeyName k) v := by
  unfold cleanStep
  rw [if_neg hk]
  rw [if_neg (fun hc => by rw [hn] at hc; exact absurd hc.1 (by simp))]
  rw [if_neg (fun hc => by rw [hn] at hc; exact absurd hc (by simp))]

theorem cleanStep_name_file (acc : Dict) (k v : String) (hn : isNameLabel k = true)
    (hf : pyIn "File:" v = true) :
    cleanStep acc (k, v) = cleanNameFile acc k v := by
  have hk : k ≠ "Section" := by
    intro he
    rw [he] at hn
    exact absurd hn (by decide)
  unfold cleanStep
  rw [if_neg hk, if_pos ⟨hn, hf⟩]

/-- C4 counterexample: for the non-name column "Value" with raw cell text
"a&b", the stored value is the sanitized text "a&amp;b" (HTML-escaped), not
the merely whitespace-trimmed raw text "a&b". -/
theorem C4_sanitize_not_trim_counterexample :
    clean_and_format_data (extract_all_tables (oneColDoc "Value" "a&b"))
      = [[("Section", "Table 1"), ("Value", "a&amp;b")]]
      ∧ pyStrip "a&b" = "a&b"
      ∧ dget ((clean_and_format_data (extract_all_tables (oneColDoc "Value" "a&b"))).getD 0 [])
          "Value" ≠ some (pyStrip "a&b") := by
  refine ⟨by decide, by decide, by decide⟩

/-- C4 (amended): for a column whose sanitized label is not a name label, the
pipeline stores the cell text after full sanitization (HTML-escaping, removal
of dangerous characters, truncation, whitespace trimming) — not after
whitespace trimming only — and the Cleaner passes this sanitized value through
unchanged under the (possibly renamed) key. -/
theorem C4_passthrough_sanitized (h t : String)
    (hh : h ≠ "")
    (hsh : sanitize_input h ≠ "")
    (hshs : sanitize_input h ≠ "Section")
    (hname : isNameLabel (sanitize_input h) = false)
    (hkey : cleanKeyName (sanitize_input h) ≠ "Section")
    (hkeycn : cleanKeyName (sanitize_input h) ≠ "Character Name")
    (hst : sanitize_input t ≠ "") :
    clean_and_format_data (extract_all_tables (oneColDoc h t))
      = [[("Section", "Table 1"), (cleanKeyName (sanitize_input h), sanitize_input t)]]
      ∧ dget ((clean_and_format_data (extract_all_tables (oneColDoc h t))).getD 0 [])
          (cleanKeyName (sanitize_input h)) = some (sanitize_input t) := by
  have hT : sanitize_input "Table 1" = "Table 1" := by decide
  have hhne : h ≠ "Section" := fun he => hshs (by rw [he]; decide)
  have hheaders : buildHeaders [HCell.mk h none] = [h] := by
    unfold buildHeaders
    simp only [List.foldl_cons, List.foldl_nil]
    rw [if_neg (show ¬(HCell.mk h none).text = "" from hh)]
    rfl
  have hsec1 : sectionName [] 0 none = "Table 1" := by decide
  have hmapcv : [HCell.mk t none].map cellValue = [t] := rfl
  have hre := retained_row_eq "Table 1" [h] [t] rfl (by simp)
    (by simpa using Ne.symm hhne) (by simp) (by simpa using Ne.symm hshs)
    (by intro x hx; rw [List.mem_singleton] at hx; rw [hx]; exact hsh)
    (by intro v hv; rw [List.mem_singleton] at hv; rw [hv]; exact hst)
    (by decide)
  have hextract : extract_all_tables (oneColDoc h t)
      = [[(sanitize_input h, sanitize_input t), ("Section", "Table 1")]] := by
    show tableRows (sectionName [] 0 none) (buildHeaders [HCell.mk h none])
      [[HCell.mk t none]] ++ [] = _
    rw [hsec1, hheaders, List.append_nil]
    conv_lhs => rw [tableRows]
    rw [if_pos (show [HCell.mk t none].length = [h].length from rfl), hmapcv, hre,
      if_pos (by simp)]
    rw [hT]
    rfl
  have hget : dget [(sanitize_input h, sanitize_input t), ("Section", "Table 1")] "Section"
      = some "Table 1" := by
    rw [dget, if_neg hshs, dget, if_pos rfl]
  have hdset : dset [("Section", "Table 1")] (cleanKeyName (sanitize_input h)) (sanitize_input t)
      = [("Section", "Table 1"), (cleanKeyName (sanitize_input h), sanitize_input t)] := by
    rw [dset, if_neg (Ne.symm hkey)]
    rfl
  have hclean : cleanRow [(sanitize_input h, sanitize_input t), ("Section", "Table 1")]
      = [("Section", "Table 1"), (cleanKeyName (sanitize_input h), sanitize_input t)] := by
    unfold cleanRow
    rw [hget]
    simp only [List.foldl_cons, List.foldl_nil, Option.getD_some]
    rw [cleanStep_other _ _ _ hshs hname, hdset]
    rw [show cleanStep [("Section", "Table 1"), (cleanKeyName (sanitize_input h), sanitize_input t)]
        ("Section", "Table 1")
      = [("Section", "Table 1"), (cleanKeyName (sanitize_input h), sanitize_input t)] from by
        unfold cleanStep
        rw [if_pos rfl]]
    rw [show dget [("Section", "Table 1"), (cleanKeyName (sanitize_input h), sanitize_input t)]
        "Character Name" = none from by
      rw [dget, if_neg (by decide), dget, if_neg hkeycn]
      rfl]
  have hmain : clean_and_format_data (extract_all_tables (oneColDoc h t))
      = [[("Section", "Table 1"), (cleanKeyName (sanitize_input h), sanitize_input t)]] := by
    rw [hextract]
    show [cleanRow [(sanitize_input h, sanitize_input t), ("Section", "Table 1")]] = _
    rw [hclean]
  refine ⟨hmain, ?_⟩
  rw [hmain]
  show dget [("Section", "Table 1"), (cleanKeyName (sanitize_input h), sanitize_input t)]
    (cleanKeyName (sanitize_input h)) = _
  rw [dget, if_neg (by exact fun he => hkey he.symm), dget, if_pos rfl]

/-- C4 witness: the sanitized pass-through theorem evaluated at the non-name
column "Value" with cell text " 100 " (sanitizing to "100"). -/
theorem C4_passthrough_sanitized_witness :
    clean_and_format_data (extract_all_tables (oneColDoc "Value" " 100 "))
      = [[("Section", "Table 1"), (cleanKeyName (sanitize_input "Value"), sanitize_input " 100 ")]]
      ∧ dget ((clean_and_format_data (extract_all_tables (oneColDoc "Value" " 100 "))).getD 0 [])
          (cleanKeyName (sanitize_input "Value")) = some (sanitize_input " 100 ") :=
  C4_passthrough_sanitized "Value" " 100 " (by decide) (by decide) (by decide) (by decide)
    (by decide) (by decide) (by decide)

/-! Claim C5: the `File:` / `.png` matcher. -/

theorem scanPng_spec (nm : List Char) :
    ∀ (acc trail : List Char) (fuel : Nat), nm.length < fuel →
    (∀ j < nm.length, ¬ ".png".data.isPrefixOf ((nm ++ ".png".data ++ trail).drop j)) →
    Char.ofNat 10 ∉ nm →
    scanPng fuel acc (nm ++ ".png".data ++ trail)
      = some (acc.reverse ++ nm, trail.takeWhile (fun c => !(c = '\n'))) := by
  induction nm with
  | nil =>
    intro acc trail fuel hf _ _
    cases fuel with
    | zero => omega
    | succ f =>
      rw [show (([] : List Char) ++ ".png".data ++ trail)
        = '.' :: ("png".data ++ trail) from rfl]
      rw [scanPng]
      rw [if_pos (List.isPrefixOf_iff_prefix.mpr ⟨trail, by simp⟩)]
      rw [show (('.' :: ("png".data ++ trail)).drop 4) = trail from rfl]
      simp
  | cons c nm' ih =>
    intro acc trail fuel hf hnp hnl
    cases fuel with
    | zero => omega
    | succ f =>
      have hcons : (c :: nm') ++ ".png".data ++ trail = c :: (nm' ++ ".png".data ++ trail) := by
        simp
      rw [hcons, scanPng]
      have hp0 : ¬ ".png".data.isPrefixOf (c :: (nm' ++ ".png".data ++ trail)) := by
        have := hnp 0 (by simp)
        rw [List.drop_zero, hcons] at this
        exact this
      rw [if_neg hp0]
      have hc : ¬ c = '\n' := by
        intro he
        exact hnl (by rw [← he] at hnl ⊢; exact List.mem_cons_self c nm')
      rw [if_neg hc]
      rw [ih (c :: acc) trail f (by simpa using hf) ?_ ?_]
      · simp
      · intro j hj
        have := hnp (j + 1) (by simpa using Nat.succ_lt_succ hj)
        rw [hcons] at this
        simpa using this
      · exact fun hm => hnl (List.mem_cons_of_mem c hm)

theorem findFile_spec (nm trail : List Char) (fuel : Nat) (hf : 1 ≤ fuel)
    (hnp : ∀ j < nm.length, ¬ ".png".data.isPrefixOf ((nm ++ ".png".data ++ trail).drop j))
    (hnl : Char.ofNat 10 ∉ nm) :
    findFile fuel ("File:".data ++ (nm ++ ".png".data ++ trail))
      = some (nm, trail.takeWhile (fun c => !(c = '\n'))) := by
  cases fuel with
  | zero => omega
  | succ f =>
    have hshape : "File:".data ++ (nm ++ ".png".data ++ trail)
        = 'F' :: ("ile:".data ++ (nm ++ ".png".data ++ trail)) := by simp
    rw [hshape, findFile]
    rw [if_pos (List.isPrefixOf_iff_prefix.mpr ⟨nm ++ ".png".data ++ trail, by simp⟩)]
    have hdrop : ('F' :: ("ile:".data ++ (nm ++ ".png".data ++ trail))).drop 5
        = nm ++ ".png".data ++ trail := rfl
    rw [hdrop]
    have hlen : nm.length < ('F' :: ("ile:".data ++ (nm ++ ".png".data ++ trail))).length := by
      simp
      omega
    rw [scanPng_spec nm [] trail _ hlen hnp hnl]
    simp

theorem pyIn_of_append (n : String) (l : List Char) :
    pyInAux n.data (n.data ++ l) = true := by
  cases hn : n.data with
  | nil =>
    cases l with
    | nil => rfl
    | cons a t => rfl
  | cons c t =>
    show pyInAux (c :: t) ((c :: t) ++ l) = true
    rw [List.cons_append, pyInAux]
    rw [List.isPrefixOf_iff_prefix.mpr ⟨l, by simp⟩]
    simp

theorem sub4Go_ne_nil (fuel : Nat) (b : Bool) (l : List Char) (hf : 1 ≤ fuel) (hl : l ≠ []) :
    sub4Go fuel b l ≠ [] := by
  cases fuel with
  | zero => omega
  | succ f =>
    match l, hl with
    | c :: rest, _ =>
      rw [sub4Go]
      by_cases hw : isWordChar c ∧ b = false
      · rw [if_pos hw]
        dsimp only
        split_ifs with hm
        · have hrun : (c :: rest).takeWhile isWordChar = c :: rest.takeWhile isWordChar := by
            rw [List.takeWhile_cons, if_pos hw.1]
          have hn1 : 1 ≤ ((c :: rest).takeWhile isWordChar).length := by
            rw [hrun]
            simp
          have hm1 := hm.1
          have hhalf : 1 ≤ ((c :: rest).takeWhile isWordChar).length / 2 := by omega
          intro he
          rcases List.append_eq_nil.mp he with ⟨he1, _⟩
          rw [List.take_eq_nil_iff] at he1
          rcases he1 with he1 | he1
          · omega
          · rw [he1] at hn1
            simp at hn1
        · simp
      · rw [if_neg hw]
        simp

/-- C5 counterexample: a name-column value with a non-png file token
("File:Naruto.jpgHero") is not split at all: the regex requires the literal
".png", so the entry is kept unchanged under its raw key and neither
"File Name" nor "Character Name" is produced. -/
theorem C5_non_png_not_split_counterexample :
    cleanRow [("name", "File:Naruto.jpgHero"), ("Section", "S")]
      = [("Section", "S"), ("name", "File:Naruto.jpgHero")]
      ∧ dget (cleanRow [("name", "File:Naruto.jpgHero"), ("Section", "S")]) "File Name" = none
      ∧ dget (cleanRow [("name", "File:Naruto.jpgHero"), ("Section", "S")]) "Character Name"
        = none := by
  refine ⟨by decide, by decide, by decide⟩

/-- C5 (amended): for a name-labeled column whose text is a "File:<name>.png"
token followed by trailing text (newline-free, no earlier ".png" occurrence),
the cleaner produces File Name = the stripped name portion, and Character Name
= the final duplicate-collapse of the stripped trailing text if non-empty,
else of the stripped name portion; Character Name is non-empty whenever either
portion strips non-empty.  Only the literal ".png" extension is split; other
extensions are left unsplit (see the counterexample). -/
theorem C5_png_split (k nm trail secv : String)
    (hk : isNameLabel k = true)
    (hnp : ∀ j < nm.data.length,
      ¬ ".png".data.isPrefixOf ((nm.data ++ ".png".data ++ trail.data).drop j))
    (hnl : Char.ofNat 10 ∉ nm.data) (hnl2 : Char.ofNat 10 ∉ trail.data) :
    dget (cleanRow [(k, "File:" ++ nm ++ ".png" ++ trail), ("Section", secv)]) "File Name"
      = some (pyStrip nm)
      ∧ dget (cleanRow [(k, "File:" ++ nm ++ ".png" ++ trail), ("Section", secv)])
          "Character Name"
        = some (sub4Str (if pyStrip trail ≠ "" then pyStrip trail else pyStrip nm))
      ∧ ((pyStrip trail ≠ "" ∨ pyStrip nm ≠ "") →
          dget (cleanRow [(k, "File:" ++ nm ++ ".png" ++ trail), ("Section", secv)])
            "Character Name" ≠ some "") := by
  have hk_ne_sec : k ≠ "Section" := by
    intro he
    rw [he] at hk
    exact absurd hk (by decide)
  have hvdata : ("File:" ++ nm ++ ".png" ++ trail).data
      = "File:".data ++ (nm.data ++ ".png".data ++ trail.data) := by
    simp [String.data_append]
  have hpyin : pyIn "File:" ("File:" ++ nm ++ ".png" ++ trail) = true := by
    show pyInAux "File:".data ("File:" ++ nm ++ ".png" ++ trail).data = true
    rw [hvdata]
    exact pyIn_of_append "File:" _
  have hff : findFile ("File:" ++ nm ++ ".png" ++ trail).data.length
      ("File:" ++ nm ++ ".png" ++ trail).data
      = some (nm.data, trail.data.takeWhile (fun c => !(c = '\n'))) := by
    rw [hvdata]
    exact findFile_spec nm.data trail.data _ (by simp) hnp hnl
  have htw : trail.data.takeWhile (fun c => !(c = '\n')) = trail.data := by
    rw [List.takeWhile_eq_self_iff]
    intro c hc
    simp only [Bool.not_eq_true', decide_eq_false_iff_not]
    intro he
    exact hnl2 (by rw [← show '\n' = Char.ofNat 10 from rfl, ← he]; exact hc)
  have hget : dget [(k, "File:" ++ nm ++ ".png" ++ trail), ("Section", secv)] "Section"
      = some secv := by
    rw [dget, if_neg hk_ne_sec, dget, if_pos rfl]
  have hnamefile : cleanNameFile [("Section", secv)] k ("File:" ++ nm ++ ".png" ++ trail)
      = [("Section", secv), ("File Name", pyStrip nm),
         ("Character Name", if pyStrip trail ≠ "" then pyStrip trail else pyStrip nm)] := by
    unfold cleanNameFile
    rw [hff]
    dsimp only
    rw [htw]
    have heta1 : (⟨nm.data⟩ : String) = nm := rfl
    have heta2 : (⟨trail.data⟩ : String) = trail := rfl
    rw [heta1, heta2]
    have hd1 : dset [("Section", secv)] "File Name" (pyStrip nm)
        = [("Section", secv), ("File Name", pyStrip nm)] := by
      rw [dset, if_neg (by decide)]
      rfl
    by_cases hcn : pyStrip trail = ""
    · rw [if_neg (fun hne => hne hcn), hd1]
      rw [show (if pyStrip trail ≠ "" then pyStrip trail else pyStrip nm) = pyStrip nm from
        if_neg (fun hne => hne hcn)]
      rw [dset, if_neg (by decide), dset, if_neg (by decide)]
      rfl
    · rw [if_pos hcn, hd1]
      rw [show (if pyStrip trail ≠ "" then pyStrip trail else pyStrip nm) = pyStrip trail from
        if_pos hcn]
      rw [dset, if_neg (by decide), dset, if_neg (by decide)]
      rfl
  have hrow : cleanRow [(k, "File:" ++ nm ++ ".png" ++ trail), ("Section", secv)]
      = [("Section", secv), ("File Name", pyStrip nm),
         ("Character Name",
           sub4Str (if pyStrip trail ≠ "" then pyStrip trail else pyStrip nm))] := by
    unfold cleanRow
    rw [hget]
    simp only [List.foldl_cons, List.foldl_nil, Option.getD_some]
    rw [cleanStep_name_file _ _ _ hk hpyin, hnamefile]
    rw [show cleanStep [("Section", secv), ("File Name", pyStrip nm),
        ("Character Name", if pyStrip trail ≠ "" then pyStrip trail else pyStrip nm)]
        ("Section", secv)
      = [("Section", secv), ("File Name", pyStrip nm),
         ("Character Name", if pyStrip trail ≠ "" then pyStrip trail else pyStrip nm)] from by
        unfold cleanStep
        rw [if_pos rfl]]
    rw [show dget [("Section", secv), ("File Name", pyStrip nm),
        ("Character Name", if pyStrip trail ≠ "" then pyStrip trail else pyStrip nm)]
        "Character Name"
      = some (if pyStrip trail ≠ "" then pyStrip trail else pyStrip nm) from by
        rw [dget, if_neg (by decide), dget, if_neg (by decide), dget, if_pos rfl]]
    dsimp only
    rw [dset, if_neg (by decide), dset, if_neg (by decide), dset, if_pos rfl]
  rw [hrow]
  refine ⟨?_, ?_, ?_⟩
  · rw [dget, if_neg (by decide), dget, if_pos rfl]
  · rw [dget, if_neg (by decide), dget, if_neg (by decide), dget, if_pos rfl]
  · intro hne
    rw [dget, if_neg (by decide), dget, if_neg (by decide), dget, if_pos rfl]
    intro hsome
    have hx : (if pyStrip trail ≠ "" then pyStrip trail else pyStrip nm) ≠ "" := by
      by_cases hcn : pyStrip trail = ""
      · rw [if_neg (fun hne2 => hne2 hcn)]
        rcases hne with hne | hne
        · exact absurd hcn hne
        · exact hne
      · rw [if_pos hcn]
        exact hcn
    have hxd : (if pyStrip trail ≠ "" then pyStrip trail else pyStrip nm).data ≠ [] := by
      intro hd
      exact hx (by rw [show ("" : String) = ⟨[]⟩ from rfl]; exact String.ext hd)
    have h4 := sub4Go_ne_nil
      (if pyStrip trail ≠ "" then pyStrip trail else pyStrip nm).data.length false
      (if pyStrip trail ≠ "" then pyStrip trail else pyStrip nm).data
      (by cases hq : (if pyStrip trail ≠ "" then pyStrip trail else pyStrip nm).data with
        | nil => exact absurd hq hxd
        | cons a t => simp [hq])
      hxd
    have hs4 : sub4Str (if pyStrip trail ≠ "" then pyStrip trail else pyStrip nm) ≠ "" := by
      intro hs
      exact h4 (by
        have := congrArg String.data hs
        simpa [sub4Str] using this)
    exact hs4 (Option.some.inj hsome)

/-- C5 witness: the png-split theorem at the spec's own scenario, the name
column value "File:Naruto.pngNarutoNaruto": File Name "Naruto", Character Name
the collapse of "NarutoNaruto", and Character Name non-empty. -/
theorem C5_png_split_witness :
    dget (cleanRow [("name", "File:" ++ "Naruto" ++ ".png" ++ "NarutoNaruto"),
        ("Section", "S Tier")]) "File Name" = some (pyStrip "Naruto")
      ∧ dget (cleanRow [("name", "File:" ++ "Naruto" ++ ".png" ++ "NarutoNaruto"),
          ("Section", "S Tier")]) "Character Name"
        = some (sub4Str (if pyStrip "NarutoNaruto" ≠ "" then pyStrip "NarutoNaruto"
            else pyStrip "Naruto"))
      ∧ dget (cleanRow [("name", "File:" ++ "Naruto" ++ ".png" ++ "NarutoNaruto"),
          ("Section", "S Tier")]) "Character Name" ≠ some "" := by
  have h := C5_png_split "name" "Naruto" "NarutoNaruto" "S Tier"
    (by decide) (by decide) (by decide) (by decide)
  exact ⟨h.1, h.2.1, h.2.2 (Or.inl (by decide))⟩
